import Mathlib

/-!
Verification of the karpenter batch scheduler core against its
natural-language specification.

The development shallowly embeds the Go sources:
  * `pkg/controllers/state/hostportusage.go` (host-port reservation ledger)
  * `pkg/controllers/provisioning/scheduling/scheduler.go` (the Solve loop,
    placement dispatch, and provisioner resource-limit accounting)

Machine quantities (`resource.Quantity`) are modelled as `Int` (the scheduler
only compares and subtracts them); Kubernetes resource lists (`v1.ResourceList`,
a string-keyed map) are modelled as association lists whose iteration order is
the list order. Collaborator code that lives outside the two files above
(Go's `net.IP`, the proposed-node `Add` operation, the retry queue, the
preference relaxer) is modelled from its documented semantics or from the
specification; each such definition says so in its doc comment.
-/

namespace Karpenter

/-! ## Resource lists -/

/-- Models `resource.Quantity`: the scheduler only compares (`resources.Cmp`)
and subtracts (`Quantity.Sub`) quantities, so an integer suffices. -/
abbrev Quantity := Int

abbrev ResourceName := String

/-- Models `v1.ResourceList` (`map[ResourceName]resource.Quantity`) as an
association list; Go map indexing of an absent key yields the zero quantity. -/
abbrev ResourceList := List (ResourceName × Quantity)

/-- Go map read `rl[k]`: the zero `Quantity` when the key is absent. -/
def rlLookup (rl : ResourceList) (k : ResourceName) : Quantity :=
  match rl.find? (fun kv => kv.1 = k) with
  | some kv => kv.2
  | none => 0

/-- The keys of a resource list, in iteration order. -/
def rlKeys (rl : ResourceList) : List ResourceName :=
  rl.map Prod.fst

/-- Models `cloudprovider.InstanceType` (an interface declared outside the
embedded files): the scheduler-side code uses only `Resources()`; `name`
keeps instance types distinguishable. -/
structure InstanceType where
  name : String
  resources : ResourceList
deriving DecidableEq

/-- Modelled from the spec: `resources.MaxResources` (helper package not under
`src/`) — "the element-wise max capacity over that node's viable instance-type
set". Capacities are non-negative, so flooring the maximum at the zero
quantity is harmless. -/
def maxResources (ls : List ResourceList) : ResourceList :=
  ((ls.flatMap rlKeys).dedup).map
    (fun k => (k, (ls.map (fun l => rlLookup l k)).foldl max 0))

/-- Translation of `subtractMax` (scheduler.go:200-217): the remaining budget
after pessimistically subtracting, per resource in `remaining`, the maximum
capacity over the given instance types. -/
def subtractMax (remaining : ResourceList) (instanceTypes : List InstanceType) :
    ResourceList :=
  match instanceTypes with
  | [] => remaining
  | it :: rest =>
    let itResources := maxResources ((it :: rest).map InstanceType.resources)
    remaining.map (fun kv => (kv.1, kv.2 - rlLookup itResources kv.1))

/-- Translation of `filterByRemainingResources` (scheduler.go:220-236): keep an
instance type iff no resource named in `remaining` is exceeded by its
capacity (`resources.Cmp(capacity, remaining) > 0` marks it non-viable). -/
def filterByRemainingResources (instanceTypes : List InstanceType)
    (remaining : ResourceList) : List InstanceType :=
  instanceTypes.filter
    (fun it => remaining.all (fun rq => rlLookup it.resources rq.1 ≤ rq.2))

theorem rlKeys_map_sub (rl : ResourceList) (f : ResourceName → Quantity) :
    rlKeys (rl.map (fun kv => (kv.1, kv.2 - f kv.1))) = rlKeys rl := by
  simp [rlKeys]

theorem rlLookup_map_sub (rl : ResourceList) (f : ResourceName → Quantity)
    (k : ResourceName) (hk : k ∈ rlKeys rl) :
    rlLookup (rl.map (fun kv => (kv.1, kv.2 - f kv.1))) k = rlLookup rl k - f k := by
  induction rl with
  | nil => simp [rlKeys] at hk
  | cons kv rest ih =>
    by_cases h : kv.1 = k
    · simp [rlLookup, List.find?, h]
    · have hk' : k ∈ rlKeys rest := by
        simp [rlKeys] at hk ⊢
        rcases hk with h1 | h1
        · exact absurd h1.symm h
        · exact h1
      simpa [rlLookup, List.find?, h] using ih hk'

/-- C10: `subtractMax` is the identity on an empty instance-type list, and for
a non-empty list the result's resource keys are exactly the keys of the input
budget (resources absent from the budget are never introduced). -/
theorem subtractMax_empty_and_keys :
    (∀ remaining : ResourceList, subtractMax remaining [] = remaining)
    ∧ (∀ (remaining : ResourceList) (instanceTypes : List InstanceType),
        instanceTypes ≠ [] →
        rlKeys (subtractMax remaining instanceTypes) = rlKeys remaining) := by
  constructor
  · intro remaining; rfl
  · intro remaining instanceTypes h
    match instanceTypes, h with
    | it :: rest, _ => exact rlKeys_map_sub remaining _

/-- Witness for C10 at a concrete budget and instance-type list. -/
theorem subtractMax_empty_and_keys_witness :
    subtractMax [("cpu", 10)] [] = [("cpu", 10)]
    ∧ rlKeys (subtractMax [("cpu", 10), ("memory", 7)]
        [⟨"m5.large", [("cpu", 2), ("pods", 110)]⟩])
      = rlKeys [("cpu", 10), ("memory", 7)] :=
  ⟨subtractMax_empty_and_keys.1 [("cpu", 10)],
   subtractMax_empty_and_keys.2 [("cpu", 10), ("memory", 7)]
     [⟨"m5.large", [("cpu", 2), ("pods", 110)]⟩] (by decide)⟩

/-- C5: `filterByRemainingResources` returns exactly the instance types whose
capacity is at most the remaining quantity for every resource named in the
budget, and it returns them as a sublist of the input, i.e. in their original
relative order. -/
theorem filterByRemainingResources_spec (instanceTypes : List InstanceType)
    (remaining : ResourceList) :
    (∀ it, it ∈ filterByRemainingResources instanceTypes remaining ↔
        (it ∈ instanceTypes ∧
          ∀ rq ∈ remaining, rlLookup it.resources rq.1 ≤ rq.2))
    ∧ (filterByRemainingResources instanceTypes remaining).Sublist instanceTypes := by
  constructor
  · intro it
    simp [filterByRemainingResources, List.mem_filter, List.all_eq_true]
  · exact List.filter_sublist _

/-- Witness for C5 at a concrete instance-type list and budget: the 2-CPU type
survives, the over-budget 16-CPU type is dropped, order is preserved. -/
theorem filterByRemainingResources_spec_witness :
    (∀ it, it ∈ filterByRemainingResources
        [⟨"small", [("cpu", 2)]⟩, ⟨"large", [("cpu", 16)]⟩] [("cpu", 10)] ↔
        (it ∈ [⟨"small", [("cpu", 2)]⟩, ⟨"large", [("cpu", 16)]⟩] ∧
          ∀ rq ∈ [(("cpu" : ResourceName), (10 : Quantity))],
            rlLookup it.resources rq.1 ≤ rq.2))
    ∧ (filterByRemainingResources
        [⟨"small", [("cpu", 2)]⟩, ⟨"large", [("cpu", 16)]⟩] [("cpu", 10)]).Sublist
        [⟨"small", [("cpu", 2)]⟩, ⟨"large", [("cpu", 16)]⟩] :=
  filterByRemainingResources_spec
    [⟨"small", [("cpu", 2)]⟩, ⟨"large", [("cpu", 16)]⟩] [("cpu", 10)]

/-! ## Go `net.IP`

An IP is a byte slice of length 4 or 16, modelled as `List Nat`. `ipEqual`,
`isUnspecified`, `ipv4` and the parser below model the Go standard library
(`net.IP.Equal`, `net.IP.IsUnspecified`, `net.IPv4`, `net.ParseIP`), which the
embedded code calls. -/

/-- The 12-byte header `net.v4InV6Prefix` that embeds an IPv4 address into a
16-byte IP. -/
def v4MappedHeader : List Nat := [0, 0, 0, 0, 0, 0, 0, 0, 0, 0, 255, 255]

/-- Models `net.IPv4 a b c d`: the 16-byte representation of an IPv4 address. -/
def ipv4 (a b c d : Nat) : List Nat := v4MappedHeader ++ [a, b, c, d]

/-- Models `net.IP.Equal`: bytewise equality at equal lengths, and a 4-byte
address equals its 16-byte IPv4-in-IPv6 form. -/
def ipEqual (x y : List Nat) : Bool :=
  if x.length = y.length then decide (x = y)
  else if x.length = 4 ∧ y.length = 16 then
    decide (y.take 12 = v4MappedHeader ∧ x = y.drop 12)
  else if x.length = 16 ∧ y.length = 4 then
    decide (x.take 12 = v4MappedHeader ∧ y = x.drop 12)
  else false

/-- Models `net.IPv4zero` (`0.0.0.0` in 16-byte form). -/
def IPv4zero : List Nat := ipv4 0 0 0 0

/-- Models `net.IPv6unspecified` (`::`). -/
def IPv6unspecified : List Nat := List.replicate 16 0

/-- Models `net.IP.IsUnspecified`: equal to `0.0.0.0` or to `::`. -/
def isUnspecified (ip : List Nat) : Bool :=
  ipEqual ip IPv4zero || ipEqual ip IPv6unspecified

/-! ## The host-port ledger (hostportusage.go) -/

/-- Translation of `entry` (hostportusage.go:32-37); `podName` models
`types.NamespacedName` as a (namespace, name) pair. -/
structure entry where
  podName : String × String
  ip : List Nat
  port : Int
  protocol : String
deriving DecidableEq

/-- Translation of `entry.matches` (hostportusage.go:43-57). -/
def entry.matches (e rhs : entry) : Bool :=
  if e.protocol ≠ rhs.protocol then false
  else if e.port ≠ rhs.port then false
  else if ¬ ipEqual e.ip rhs.ip ∧ ¬ isUnspecified e.ip ∧ ¬ isUnspecified rhs.ip then
    false
  else true

/-- C1: two entries match iff their protocols are equal, their ports are equal,
and their IPs are equal or either IP is unspecified; `isUnspecified` accepts
both the IPv4 zero address (in 4- and 16-byte form) and the IPv6 `::`. -/
theorem entry_matches_characterization :
    (∀ e rhs : entry, entry.matches e rhs = true ↔
        (e.protocol = rhs.protocol ∧ e.port = rhs.port ∧
          (ipEqual e.ip rhs.ip = true ∨ isUnspecified e.ip = true ∨
            isUnspecified rhs.ip = true)))
    ∧ isUnspecified (ipv4 0 0 0 0) = true
    ∧ isUnspecified [0, 0, 0, 0] = true
    ∧ isUnspecified IPv6unspecified = true := by
  refine ⟨fun e rhs => ?_, by decide, by decide, by decide⟩
  by_cases h1 : e.protocol = rhs.protocol
  · by_cases h2 : e.port = rhs.port
    · simp [entry.matches, h1, h2]
    · simp [entry.matches, h1, h2]
  · simp [entry.matches, h1]

/-- Models one field of an IPv4 dotted-quad literal as accepted by Go's
parser: one to three digits, no leading zero, value at most 255. -/
def parseV4Field (cs : List Char) : Option Nat :=
  if cs.length = 0 ∨ 3 < cs.length then none
  else if ¬ cs.all Char.isDigit then none
  else if 1 < cs.length ∧ cs.head? = some '0' then none
  else
    let n := cs.foldl (fun a c => a * 10 + (c.toNat - 48)) 0
    if n ≤ 255 then some n else none

/-- Splits a character list on `'.'` (the field separation Go's parser
performs as it scans). -/
def splitOnDot : List Char → List (List Char)
  | [] => [[]]
  | c :: rest =>
    if c = '.' then [] :: splitOnDot rest
    else
      match splitOnDot rest with
      | g :: gs => (c :: g) :: gs
      | [] => [[c]]

/-- Models Go's IPv4 dotted-quad parse (`net.parseIPv4` semantics): four valid
fields separated by dots, returned in 16-byte form; `[]` models the nil IP
returned for invalid input. -/
def parseV4 (cs : List Char) : List Nat :=
  match (splitOnDot cs).mapM parseV4Field with
  | some [a, b, c, d] => ipv4 a b c d
  | _ => []

/-- Models `net.ParseIP`: dispatch on the first `.` or `:` in the string.
IPv6 textual forms are not modelled (they map to the nil IP `[]`); no theorem
below evaluates the parser on an IPv6 literal. -/
def parseIP (s : String) : List Nat :=
  match s.toList.find? (fun c => c = '.' ∨ c = ':') with
  | some '.' => parseV4 s.toList
  | _ => []

/-- Models the `v1.ContainerPort` fields read by `getHostPorts`. -/
structure ContainerPort where
  hostIP : String
  hostPort : Int
  protocol : String
deriving DecidableEq

/-- Models the `v1.Container` field read by `getHostPorts`. -/
structure Container where
  ports : List ContainerPort
deriving DecidableEq

/-- Models the `v1.Pod` fields used by the embedded code: identity, containers,
and (for the scheduling model, spec §4.7) the number of soft-constraint layers
the preference relaxer can still strip. -/
structure Pod where
  namespaceName : String
  name : String
  containers : List Container
  relaxable : Nat
deriving DecidableEq

/-- Translation of `getHostPorts` (hostportusage.go:96-120): one entry per
container port with non-zero `hostPort`; an empty host IP defaults to
`"0.0.0.0"`; the protocol is copied through as found on the port. -/
def getHostPorts (pod : Pod) : List entry :=
  pod.containers.flatMap (fun c =>
    c.ports.filterMap (fun p =>
      if p.hostPort = 0 then none
      else
        some { podName := (pod.namespaceName, pod.name),
               ip := parseIP (if p.hostIP = "" then "0.0.0.0" else p.hostIP),
               port := p.hostPort,
               protocol := p.protocol }))

/-- The entry `getHostPorts` builds from one container port (named so that the
characterization theorem can speak about the per-port image). -/
def portEntry (pod : Pod) (p : ContainerPort) : entry :=
  { podName := (pod.namespaceName, pod.name),
    ip := parseIP (if p.hostIP = "" then "0.0.0.0" else p.hostIP),
    port := p.hostPort,
    protocol := p.protocol }

/-- C2 counterexample: a pod with a single container port
`{hostPort = 80, hostIP = "", protocol = ""}` produces exactly one entry whose
protocol is the empty string, not `"TCP"` — `getHostPorts` does not default an
empty protocol. -/
theorem getHostPorts_empty_protocol_not_tcp :
    (getHostPorts
        { namespaceName := "default", name := "web",
          containers := [{ ports := [{ hostIP := "", hostPort := 80, protocol := "" }] }],
          relaxable := 0 }).map entry.protocol = [""]
    ∧ ("" : String) ≠ "TCP" := by
  constructor
  · rfl
  · decide

theorem parseIP_zero : parseIP "0.0.0.0" = ipv4 0 0 0 0 := by decide

theorem ports_filterMap_eq (pod : Pod) (ps : List ContainerPort) :
    ps.filterMap
        (fun p => if p.hostPort = 0 then none else some (portEntry pod p))
      = (ps.filter (fun p => p.hostPort ≠ 0)).map (portEntry pod) := by
  induction ps with
  | nil => rfl
  | cons p ps ih =>
    by_cases hp : p.hostPort = 0 <;>
      simp [List.filterMap_cons, List.filter_cons, hp, ih]

theorem containers_flatMap_eq (pod : Pod) (cs : List Container) :
    cs.flatMap (fun c => c.ports.filterMap
        (fun p => if p.hostPort = 0 then none else some (portEntry pod p)))
      = ((cs.flatMap Container.ports).filter
          (fun p => p.hostPort ≠ 0)).map (portEntry pod) := by
  induction cs with
  | nil => rfl
  | cons c rest ih =>
    rw [List.flatMap_cons, List.flatMap_cons, ih, ports_filterMap_eq,
      ← List.map_append, ← List.filter_append]

/-- C2 (amended): `getHostPorts` produces exactly one entry per container port
with non-zero `hostPort`, in order; an empty host IP is replaced by the
unspecified address `0.0.0.0`; the protocol is copied through unchanged (the
Kubernetes API, not this function, defaults an empty protocol to TCP). -/
theorem getHostPorts_characterization (pod : Pod) :
    getHostPorts pod =
      ((pod.containers.flatMap Container.ports).filter
        (fun p => p.hostPort ≠ 0)).map (portEntry pod)
    ∧ (∀ p : ContainerPort, p.hostIP = "" → (portEntry pod p).ip = ipv4 0 0 0 0)
    ∧ isUnspecified (ipv4 0 0 0 0) = true
    ∧ (∀ p : ContainerPort, (portEntry pod p).protocol = p.protocol) := by
  refine ⟨?_, fun p hp => ?_, by decide, fun p => rfl⟩
  · have h : getHostPorts pod = pod.containers.flatMap (fun c =>
        c.ports.filterMap
          (fun p => if p.hostPort = 0 then none else some (portEntry pod p))) := rfl
    rw [h, containers_flatMap_eq]
  · simp [portEntry, hp, parseIP_zero]

/-- Witness for C2's amended characterization at a concrete pod with one
filtered-out port and one kept port. -/
theorem getHostPorts_characterization_witness :
    getHostPorts
        { namespaceName := "ns", name := "pod",
          containers := [{ ports := [{ hostIP := "", hostPort := 0, protocol := "TCP" },
                                     { hostIP := "", hostPort := 443, protocol := "TCP" }] }],
          relaxable := 0 } =
      ((([{ ports := [{ hostIP := "", hostPort := 0, protocol := "TCP" },
                      { hostIP := "", hostPort := 443, protocol := "TCP" }] }] :
          List Container).flatMap Container.ports).filter
        (fun p => p.hostPort ≠ 0)).map (portEntry
          { namespaceName := "ns", name := "pod",
            containers := [{ ports := [{ hostIP := "", hostPort := 0, protocol := "TCP" },
                                       { hostIP := "", hostPort := 443, protocol := "TCP" }] }],
            relaxable := 0 }) :=
  (getHostPorts_characterization _).1

/-- First reserved entry matching `n`, mirroring the inner loop of
`HostPortUsage.Add` (hostportusage.go:67-71). -/
def findExisting (n : entry) : List entry → Option entry
  | [] => none
  | x :: rest => if entry.matches n x then some x else findExisting n rest

/-- First `(new, existing)` conflict found by the nested loops of
`HostPortUsage.Add`: new entries are scanned in order, each against every
already-reserved entry. -/
def findConflict : List entry → List entry → Option (entry × entry)
  | [], _ => none
  | n :: rest, reserved =>
    match findExisting n reserved with
    | some x => some (n, x)
    | none => findConflict rest reserved

/-- Translation of `HostPortUsage` (hostportusage.go:29-31): the reserved
entries, viewed through the backing slice. -/
structure HostPortUsage where
  reserved : List entry
deriving DecidableEq

/-- Translation of `HostPortUsage.Add` (hostportusage.go:64-75): the Go method
mutates the receiver and returns an error, modelled as returning the new state
with the error; the Go error message names the two conflicting entries, here
retained as the pair itself. -/
def HostPortUsage.Add (u : HostPortUsage) (pod : Pod) :
    HostPortUsage × Option (entry × entry) :=
  let newUsage := getHostPorts pod
  match findConflict newUsage u.reserved with
  | some c => (u, some c)
  | none => ({ reserved := u.reserved ++ newUsage }, none)

/-- Translation of `HostPortUsage.DeletePod` (hostportusage.go:78-86). -/
def HostPortUsage.DeletePod (u : HostPortUsage) (key : String × String) :
    HostPortUsage :=
  { reserved := u.reserved.filter (fun e => ¬ e.podName = key) }

theorem findExisting_eq_none (n : entry) (l : List entry) :
    findExisting n l = none ↔ ∀ x ∈ l, entry.matches n x = false := by
  induction l with
  | nil => simp [findExisting]
  | cons x rest ih =>
    by_cases h : entry.matches n x <;> simp [findExisting, h, ih]

theorem findExisting_eq_some (n : entry) (l : List entry) (x : entry)
    (h : findExisting n l = some x) : x ∈ l ∧ entry.matches n x = true := by
  induction l with
  | nil => simp [findExisting] at h
  | cons y rest ih =>
    by_cases hm : entry.matches n y
    · simp [findExisting, hm] at h
      subst h; exact ⟨List.mem_cons_self y rest, hm⟩
    · simp [findExisting, hm] at h
      rcases ih h with ⟨h1, h2⟩
      exact ⟨List.mem_cons_of_mem y h1, h2⟩

theorem findConflict_eq_none (new reserved : List entry) :
    findConflict new reserved = none ↔
      ∀ n ∈ new, ∀ x ∈ reserved, entry.matches n x = false := by
  induction new with
  | nil => simp [findConflict]
  | cons n rest ih =>
    match hfe : findExisting n reserved with
    | some x =>
      rcases findExisting_eq_some n reserved x hfe with ⟨hx, hm⟩
      simp only [findConflict, hfe]
      refine iff_of_false (by simp) ?_
      intro hall
      have hfalse := hall n (List.mem_cons_self n rest) x hx
      simp [hm] at hfalse
    | none =>
      simp only [findConflict, hfe, ih]
      rw [findExisting_eq_none] at hfe
      constructor
      · intro h m hm x hx
        rcases List.mem_cons.mp hm with h1 | h1
        · subst h1; exact hfe x hx
        · exact h m h1 x hx
      · intro h m hm x hx
        exact h m (List.mem_cons_of_mem n hm) x hx

theorem findConflict_eq_some (new reserved : List entry) (n x : entry)
    (h : findConflict new reserved = some (n, x)) :
    n ∈ new ∧ x ∈ reserved ∧ entry.matches n x = true := by
  induction new with
  | nil => simp [findConflict] at h
  | cons m rest ih =>
    match hfe : findExisting m reserved with
    | some y =>
      simp only [findConflict, hfe, Option.some.injEq, Prod.mk.injEq] at h
      rcases h with ⟨h1, h2⟩
      subst h1; subst h2
      rcases findExisting_eq_some m reserved y hfe with ⟨hy, hm⟩
      exact ⟨List.mem_cons_self m rest, hy, hm⟩
    | none =>
      simp only [findConflict, hfe] at h
      rcases ih h with ⟨h1, h2, h3⟩
      exact ⟨List.mem_cons_of_mem m h1, h2, h3⟩

theorem findConflict_nil_right (new : List entry) :
    findConflict new [] = none := by
  induction new with
  | nil => rfl
  | cons n rest ih => simp [findConflict, findExisting, ih]

/-- C7: `HostPortUsage.Add` is atomic — on a conflict it reports a pair
consisting of one of the pod's new entries and a matching already-reserved
entry and leaves the ledger unchanged; otherwise it reports no error and
appends exactly the pod's extracted entries; and the no-error case happens
precisely when no new entry matches a reserved one. -/
theorem hostPortUsage_add_atomic (u : HostPortUsage) (pod : Pod) :
    (∀ ne ex, (HostPortUsage.Add u pod).2 = some (ne, ex) →
        ne ∈ getHostPorts pod ∧ ex ∈ u.reserved ∧ entry.matches ne ex = true ∧
          (HostPortUsage.Add u pod).1 = u)
    ∧ ((HostPortUsage.Add u pod).2 = none →
        (HostPortUsage.Add u pod).1.reserved = u.reserved ++ getHostPorts pod)
    ∧ ((HostPortUsage.Add u pod).2 = none ↔
        ∀ ne ∈ getHostPorts pod, ∀ ex ∈ u.reserved, entry.matches ne ex = false) := by
  refine ⟨?_, ?_, ?_⟩
  · intro ne ex h
    have hc : findConflict (getHostPorts pod) u.reserved = some (ne, ex) := by
      match hc2 : findConflict (getHostPorts pod) u.reserved with
      | some c => simpa [HostPortUsage.Add, hc2] using h
      | none => simp [HostPortUsage.Add, hc2] at h
    rcases findConflict_eq_some _ _ ne ex hc with ⟨h1, h2, h3⟩
    refine ⟨h1, h2, h3, ?_⟩
    simp [HostPortUsage.Add, hc]
  · intro h
    match hc : findConflict (getHostPorts pod) u.reserved with
    | some c => simp [HostPortUsage.Add, hc] at h
    | none => simp [HostPortUsage.Add, hc]
  · rw [← findConflict_eq_none]
    match hc : findConflict (getHostPorts pod) u.reserved with
    | some c => simp [HostPortUsage.Add, hc]
    | none => simp [HostPortUsage.Add, hc]

/-- Witness for C7: a pod whose port 80 does not conflict with the reserved
port 443 entry is appended. -/
theorem hostPortUsage_add_atomic_witness :
    (HostPortUsage.Add
        { reserved := [{ podName := ("ns", "other"), ip := ipv4 0 0 0 0,
                         port := 443, protocol := "TCP" }] }
        { namespaceName := "ns", name := "web",
          containers := [{ ports := [{ hostIP := "", hostPort := 80,
                                       protocol := "TCP" }] }],
          relaxable := 0 }).1.reserved =
      [{ podName := ("ns", "other"), ip := ipv4 0 0 0 0,
         port := 443, protocol := "TCP" }] ++
        getHostPorts
          { namespaceName := "ns", name := "web",
            containers := [{ ports := [{ hostIP := "", hostPort := 80,
                                         protocol := "TCP" }] }],
            relaxable := 0 } :=
  (hostPortUsage_add_atomic _ _).2.1 (by rfl)

/-- C9: `HostPortUsage.Add` checks new entries only against previously
reserved entries, never against each other — a pod whose own ports include two
mutually matching entries is still admitted into an empty ledger, and both
conflicting entries are recorded. -/
theorem hostPortUsage_add_no_self_check (pod : Pod)
    (_h : ¬ List.Pairwise (fun a b => entry.matches a b = false) (getHostPorts pod)) :
    HostPortUsage.Add { reserved := [] } pod =
      ({ reserved := getHostPorts pod }, none) := by
  simp [HostPortUsage.Add, findConflict_nil_right]

/-- Witness for C9: a pod with two containers both requesting host port 80 on
TCP — the two extracted entries match each other, yet `Add` succeeds on an
empty ledger and records both. -/
theorem hostPortUsage_add_no_self_check_witness :
    HostPortUsage.Add { reserved := [] }
        { namespaceName := "ns", name := "twin",
          containers := [{ ports := [{ hostIP := "", hostPort := 80, protocol := "TCP" }] },
                         { ports := [{ hostIP := "", hostPort := 80, protocol := "TCP" }] }],
          relaxable := 0 } =
      ({ reserved := getHostPorts
          { namespaceName := "ns", name := "twin",
            containers := [{ ports := [{ hostIP := "", hostPort := 80, protocol := "TCP" }] },
                           { ports := [{ hostIP := "", hostPort := 80, protocol := "TCP" }] }],
            relaxable := 0 } }, none) :=
  hostPortUsage_add_no_self_check _ (by decide)

/-! ## Slice aliasing model for `HostPortUsage.Copy`

`Copy` (hostportusage.go:90-94) is documented as a shallow copy that is safe
because the shared state is read-only. To make that frame property non-trivial
we model Go slices with explicit backing arrays in a heap: a slice is an
(optional) array id plus a length, the array's length is the capacity, and
`append` either writes in place within capacity — visibly mutating every alias
of that array — or allocates a fresh array with doubled capacity, as the Go
runtime does. -/

/-- The zero `entry`, used to pad freshly grown backing arrays. -/
def zeroEntry : entry :=
  { podName := ("", ""), ip := [], port := 0, protocol := "" }

/-- A Go slice header over an `entry` backing array: `none` models the nil
slice. The array's full length is the capacity (all our slices start at
offset 0). -/
structure GoSlice where
  arr : Option Nat
  len : Nat
deriving DecidableEq

/-- The store of backing arrays. -/
structure Heap where
  arrays : List (List entry)
deriving DecidableEq

/-- The backing array with id `a` (the empty array for a dangling id). -/
def Heap.getArr (h : Heap) (a : Nat) : List entry :=
  h.arrays.getD a []

/-- The elements a slice denotes: the first `len` cells of its backing array. -/
def sliceView (h : Heap) (s : GoSlice) : List entry :=
  match s.arr with
  | none => []
  | some a => (h.getArr a).take s.len

/-- The nil slice (also models the empty literal `[]entry{}`: length and
capacity zero, so appending to it always allocates, exactly as in Go). -/
def nilSlice : GoSlice := { arr := none, len := 0 }

/-- A slice header is well-formed when its id is allocated and its length is
within capacity. -/
def SliceWF (h : Heap) (s : GoSlice) : Prop :=
  match s.arr with
  | none => s.len = 0
  | some a => a < h.arrays.length ∧ s.len ≤ (h.getArr a).length

/-- Allocation path of Go's `append`: a fresh array holding the old elements
then `xs`, with capacity grown to at least double (`growslice`), padded with
zero entries. -/
def goAlloc (h : Heap) (old xs : List entry) (oldCap : Nat) : Heap × GoSlice :=
  let newLen := old.length + xs.length
  let newCap := max (2 * oldCap) newLen
  let content := old ++ xs ++ List.replicate (newCap - newLen) zeroEntry
  (⟨h.arrays ++ [content]⟩, ⟨some h.arrays.length, newLen⟩)

/-- Models Go's `append(s, xs...)`: within capacity it writes into the shared
backing array in place; beyond capacity it allocates. -/
def goAppend (h : Heap) (s : GoSlice) (xs : List entry) : Heap × GoSlice :=
  if xs.length = 0 then (h, s)
  else
    match s.arr with
    | some a =>
      let arr := h.getArr a
      if s.len + xs.length ≤ arr.length then
        (⟨h.arrays.set a
            (arr.take s.len ++ xs ++ arr.drop (s.len + xs.length))⟩,
         ⟨some a, s.len + xs.length⟩)
      else goAlloc h (sliceView h s) xs arr.length
    | none => goAlloc h [] xs 0

/-- Translation of `HostPortUsage.Add` at the slice level: the conflict check
reads the reserved view, then `u.reserved = append(u.reserved, newUsage...)`. -/
def heapAdd (h : Heap) (u : GoSlice) (pod : Pod) :
    Heap × GoSlice × Option (entry × entry) :=
  let newUsage := getHostPorts pod
  match findConflict newUsage (sliceView h u) with
  | some c => (h, u, some c)
  | none =>
    let hs := goAppend h u newUsage
    (hs.1, hs.2, none)

/-- Translation of `HostPortUsage.Copy` (hostportusage.go:90-94):
`append([]entry{}, u.reserved...)` — an append to an empty slice, which
allocates a fresh backing array whenever the source is non-empty. -/
def heapCopy (h : Heap) (u : GoSlice) : Heap × GoSlice :=
  goAppend h nilSlice (sliceView h u)

/-- One iteration of the `DeletePod` loop: keep the entry (appending it to the
`remaining` slice) unless it belongs to the deleted pod. -/
def deleteStep (key : String × String) (acc : Heap × GoSlice) (e : entry) :
    Heap × GoSlice :=
  if e.podName = key then acc else goAppend acc.1 acc.2 [e]

/-- Translation of `HostPortUsage.DeletePod` (hostportusage.go:78-86) at the
slice level: `remaining` starts nil and every kept entry is appended. -/
def heapDeletePod (h : Heap) (u : GoSlice) (key : String × String) :
    Heap × GoSlice :=
  (sliceView h u).foldl (deleteStep key) (h, nilSlice)

theorem getArr_extend (h : Heap) (content : List entry) (b : Nat)
    (hb : b < h.arrays.length) :
    Heap.getArr ⟨h.arrays ++ [content]⟩ b = h.getArr b := by
  simp [Heap.getArr, List.getD_eq_getElem?_getD, List.getElem?_append_left hb]

theorem getArr_extend_self (h : Heap) (content : List entry) :
    Heap.getArr ⟨h.arrays ++ [content]⟩ h.arrays.length = content := by
  simp [Heap.getArr, List.getD_eq_getElem?_getD, List.getElem?_concat_length]

theorem getArr_set_ne (h : Heap) (a : Nat) (v : List entry) (b : Nat)
    (hne : a ≠ b) :
    Heap.getArr ⟨h.arrays.set a v⟩ b = h.getArr b := by
  simp [Heap.getArr, List.getD_eq_getElem?_getD, List.getElem?_set_ne hne]

/-- `sliceView` only reads the slice's own backing array. -/
theorem sliceView_congr (h h' : Heap) (s : GoSlice)
    (hag : ∀ a, s.arr = some a → h'.getArr a = h.getArr a) :
    sliceView h' s = sliceView h s := by
  match hs : s.arr with
  | none => simp [sliceView, hs]
  | some a => simp [sliceView, hs, hag a hs]

/-- `goAppend` never touches an allocated array other than the one the slice
points to. -/
theorem goAppend_getArr_frame (h : Heap) (s : GoSlice) (xs : List entry)
    (b : Nat) (hb : b < h.arrays.length) (hne : s.arr ≠ some b) :
    (goAppend h s xs).1.getArr b = h.getArr b := by
  unfold goAppend
  by_cases h0 : xs.length = 0
  · simp [h0]
  · simp only [h0, if_neg]
    match hs : s.arr with
    | some a =>
      simp only []
      by_cases hcap : s.len + xs.length ≤ (h.getArr a).length
      · simp only [hcap, if_pos]
        have hab : a ≠ b := fun he => hne (he ▸ hs)
        exact getArr_set_ne h a _ b hab
      · simp only [hcap, if_neg, goAlloc]
        exact getArr_extend h _ b hb
    | none =>
      simp only [goAlloc]
      exact getArr_extend h _ b hb

theorem goAppend_length_mono (h : Heap) (s : GoSlice) (xs : List entry) :
    h.arrays.length ≤ (goAppend h s xs).1.arrays.length := by
  unfold goAppend
  by_cases h0 : xs.length = 0
  · simp [h0]
  · simp only [h0, if_neg]
    match hs : s.arr with
    | some a =>
      by_cases hcap : s.len + xs.length ≤ (h.getArr a).length
      · simp [hcap]
      · simp [hcap, goAlloc]
    | none => simp [goAlloc]

/-- The slice `goAppend` returns points either at the original array or at the
freshly allocated one. -/
theorem goAppend_arr_cases (h : Heap) (s : GoSlice) (xs : List entry) :
    (goAppend h s xs).2.arr = s.arr ∨
      (goAppend h s xs).2.arr = some h.arrays.length := by
  unfold goAppend
  by_cases h0 : xs.length = 0
  · simp [h0]
  · simp only [h0, if_neg]
    match hs : s.arr with
    | some a =>
      by_cases hcap : s.len + xs.length ≤ (h.getArr a).length
      · simp [hcap, hs]
      · simp [hcap, goAlloc]
    | none => simp [goAlloc]

/-- Frame property of the `DeletePod` fold: arrays allocated before the fold
started (below `N`) are never written, the heap only grows, and the
`remaining` slice only ever points at or above `N`. -/
theorem foldDelete_frame (key : String × String) (l : List entry) (h0 : Heap)
    (N : Nat) (acc : Heap × GoSlice)
    (hframe : ∀ b, b < N → acc.1.getArr b = h0.getArr b)
    (hlen : N ≤ acc.1.arrays.length)
    (hid : ∀ a, acc.2.arr = some a → N ≤ a) :
    (∀ b, b < N → (l.foldl (deleteStep key) acc).1.getArr b = h0.getArr b)
    ∧ N ≤ (l.foldl (deleteStep key) acc).1.arrays.length
    ∧ (∀ a, (l.foldl (deleteStep key) acc).2.arr = some a → N ≤ a) := by
  induction l generalizing acc with
  | nil => exact ⟨hframe, hlen, hid⟩
  | cons e rest ih =>
    rw [List.foldl_cons]
    by_cases hk : e.podName = key
    · have hstep : deleteStep key acc e = acc := by simp [deleteStep, hk]
      rw [hstep]
      exact ih acc hframe hlen hid
    · have hstep : deleteStep key acc e = goAppend acc.1 acc.2 [e] := by
        simp [deleteStep, hk]
      rw [hstep]
      refine ih _ ?_ ?_ ?_
      · intro b hb
        rw [goAppend_getArr_frame acc.1 acc.2 [e] b
            (Nat.lt_of_lt_of_le hb hlen) ?_]
        · exact hframe b hb
        · intro hsb
          exact absurd (hid b hsb) (Nat.not_le.mpr hb)
      · exact Nat.le_trans hlen (goAppend_length_mono acc.1 acc.2 [e])
      · intro a ha
        rcases goAppend_arr_cases acc.1 acc.2 [e] with hc | hc
        · exact hid a (hc ▸ ha)
        · rw [hc] at ha
          cases ha
          exact hlen

/-- `heapAdd` either leaves the heap alone (conflict) or appends the new
usage to the receiver's slice. -/
theorem heapAdd_heap_cases (h : Heap) (s : GoSlice) (pod : Pod) :
    (heapAdd h s pod).1 = h ∨
      (heapAdd h s pod).1 = (goAppend h s (getHostPorts pod)).1 := by
  unfold heapAdd
  match hfc : findConflict (getHostPorts pod) (sliceView h s) with
  | some c => simp [hfc]
  | none => simp [hfc]

/-- C8: `Copy` returns an independent ledger. After `c = u.Copy()`, an `Add`
or `DeletePod` applied through `c` leaves `u`'s reserved entries (the view of
its backing slice) unchanged, and one applied through `u` leaves `c`'s
unchanged — even though the model lets in-capacity appends mutate shared
backing arrays, because `Copy` allocates a fresh array. -/
theorem hostPortUsage_copy_independent (h : Heap) (u : GoSlice)
    (hwf : SliceWF h u) :
    sliceView (heapCopy h u).1 u = sliceView h u
    ∧ sliceView (heapCopy h u).1 (heapCopy h u).2 = sliceView h u
    ∧ (∀ pod, sliceView (heapAdd (heapCopy h u).1 (heapCopy h u).2 pod).1 u
        = sliceView (heapCopy h u).1 u)
    ∧ (∀ pod, sliceView (heapAdd (heapCopy h u).1 u pod).1 (heapCopy h u).2
        = sliceView (heapCopy h u).1 (heapCopy h u).2)
    ∧ (∀ key, sliceView (heapDeletePod (heapCopy h u).1 (heapCopy h u).2 key).1 u
        = sliceView (heapCopy h u).1 u)
    ∧ (∀ key, sliceView (heapDeletePod (heapCopy h u).1 u key).1 (heapCopy h u).2
        = sliceView (heapCopy h u).1 (heapCopy h u).2) := by
  by_cases hv : sliceView h u = []
  · -- The source view is empty: `append([]entry{}, nothing...)` allocates
    -- nothing and the copy is the nil slice.
    have hcopy : heapCopy h u = (h, nilSlice) := by
      rw [heapCopy, hv]
      rfl
    have hbound : ∀ a, u.arr = some a → a < h.arrays.length := by
      intro a ha
      simp [SliceWF, ha] at hwf
      exact hwf.1
    have hadd : ∀ pod, sliceView (heapAdd h nilSlice pod).1 u = sliceView h u := by
      intro pod
      rcases heapAdd_heap_cases h nilSlice pod with hc | hc
      · rw [hc]
      · rw [hc]
        refine sliceView_congr _ _ _ (fun a ha => ?_)
        exact goAppend_getArr_frame h nilSlice _ a (hbound a ha) (by simp [nilSlice])
    rw [hcopy]
    refine ⟨rfl, by rw [hv]; rfl, fun pod => ?_, fun pod => rfl,
      fun key => ?_, fun key => rfl⟩
    · exact hadd pod
    · show sliceView (heapDeletePod h nilSlice key).1 u = sliceView h u
      rw [heapDeletePod]
      rfl
  · -- Non-empty source view: the copy allocated the fresh array
    -- `h.arrays.length`, disjoint from `u`'s array.
    obtain ⟨a, hu⟩ : ∃ a, u.arr = some a := by
      match hu : u.arr with
      | some a => exact ⟨a, rfl⟩
      | none => exact absurd (by simp [sliceView, hu]) hv
    have hwf' : a < h.arrays.length ∧ u.len ≤ (h.getArr a).length := by
      simpa [SliceWF, hu] using hwf
    have hvlen : (sliceView h u).length ≠ 0 := fun h0 => hv (List.eq_nil_of_length_eq_zero h0)
    have hcopy : heapCopy h u = goAlloc h [] (sliceView h u) 0 := by
      rw [heapCopy, goAppend]
      simp [hvlen, nilSlice]
    have hh1 : (heapCopy h u).1 = Heap.mk (h.arrays ++ [sliceView h u]) := by
      rw [hcopy]
      simp [goAlloc]
    have hcc : (heapCopy h u).2 = GoSlice.mk (some h.arrays.length) (sliceView h u).length := by
      rw [hcopy]
      simp [goAlloc]
    have hane : a ≠ h.arrays.length := Nat.ne_of_lt hwf'.1
    have hlt1 : a < (heapCopy h u).1.arrays.length := by
      rw [hh1]
      simp
      exact Nat.lt_succ_of_lt hwf'.1
    have hfreshlt : h.arrays.length < (heapCopy h u).1.arrays.length := by
      rw [hh1]
      simp
    -- (1) the copy itself does not disturb u
    have c1 : sliceView (heapCopy h u).1 u = sliceView h u := by
      refine sliceView_congr _ _ _ (fun a' ha' => ?_)
      rw [hu] at ha'
      cases ha'
      rw [hh1]
      exact getArr_extend h _ a hwf'.1
    -- (2) the copy's view equals u's view
    have c2 : sliceView (heapCopy h u).1 (heapCopy h u).2 = sliceView h u := by
      rw [hcc, hh1]
      simp [sliceView, getArr_extend_self]
    refine ⟨c1, c2, fun pod => ?_, fun pod => ?_, fun key => ?_, fun key => ?_⟩
    · -- Add through the copy leaves u's view unchanged
      rcases heapAdd_heap_cases (heapCopy h u).1 (heapCopy h u).2 pod with hc | hc
      · rw [hc]
      · rw [hc]
        refine sliceView_congr _ _ _ (fun a' ha' => ?_)
        rw [hu] at ha'
        cases ha'
        refine goAppend_getArr_frame _ _ _ a hlt1 ?_
        rw [hcc]
        simp
        exact fun he => hane he.symm
    · -- Add through u leaves the copy's view unchanged
      rcases heapAdd_heap_cases (heapCopy h u).1 u pod with hc | hc
      · rw [hc]
      · rw [hc]
        refine sliceView_congr _ _ _ (fun a' ha' => ?_)
        rw [hcc] at ha'
        cases ha'
        refine goAppend_getArr_frame _ _ _ h.arrays.length hfreshlt ?_
        rw [hu]
        simp
        exact hane
    · -- DeletePod through the copy leaves u's view unchanged
      rw [heapDeletePod]
      have hfold := foldDelete_frame key (sliceView (heapCopy h u).1 (heapCopy h u).2)
        (heapCopy h u).1 (heapCopy h u).1.arrays.length ((heapCopy h u).1, nilSlice)
        (fun b _ => rfl) (Nat.le_refl _) (by simp [nilSlice])
      refine sliceView_congr _ _ _ (fun a' ha' => ?_)
      rw [hu] at ha'
      cases ha'
      exact hfold.1 a hlt1
    · -- DeletePod through u leaves the copy's view unchanged
      rw [heapDeletePod]
      have hfold := foldDelete_frame key (sliceView (heapCopy h u).1 u)
        (heapCopy h u).1 (heapCopy h u).1.arrays.length ((heapCopy h u).1, nilSlice)
        (fun b _ => rfl) (Nat.le_refl _) (by simp [nilSlice])
      refine sliceView_congr _ _ _ (fun a' ha' => ?_)
      rw [hcc] at ha'
      cases ha'
      exact hfold.1 h.arrays.length hfreshlt

/-- Witness for C8: a concrete one-entry ledger is copied, a pod is added
through the copy, and the original's view is unchanged. -/
theorem hostPortUsage_copy_independent_witness :
    sliceView
        (heapAdd
          (heapCopy
            ⟨[[{ podName := ("ns", "other"), ip := ipv4 0 0 0 0,
                 port := 443, protocol := "TCP" }]]⟩
            ⟨some 0, 1⟩).1
          (heapCopy
            ⟨[[{ podName := ("ns", "other"), ip := ipv4 0 0 0 0,
                 port := 443, protocol := "TCP" }]]⟩
            ⟨some 0, 1⟩).2
          { namespaceName := "ns", name := "web",
            containers := [{ ports := [{ hostIP := "", hostPort := 80,
                                         protocol := "TCP" }] }],
            relaxable := 0 }).1
        ⟨some 0, 1⟩
      = sliceView
          (heapCopy
            ⟨[[{ podName := ("ns", "other"), ip := ipv4 0 0 0 0,
                 port := 443, protocol := "TCP" }]]⟩
            ⟨some 0, 1⟩).1
          ⟨some 0, 1⟩ :=
  (hostPortUsage_copy_independent
    ⟨[[{ podName := ("ns", "other"), ip := ipv4 0 0 0 0,
         port := 443, protocol := "TCP" }]]⟩
    ⟨some 0, 1⟩ ⟨by decide, by decide⟩).2.2.1
    { namespaceName := "ns", name := "web",
      containers := [{ ports := [{ hostIP := "", hostPort := 80,
                                   protocol := "TCP" }] }],
      relaxable := 0 }

/-! ## The scheduler (scheduler.go)

The dispatch loop `Scheduler.add` and the `Solve` queue live in the embedded
source; the placement operations they call (`InFlightNode.Add`, the proposed
node's `NewNode`/`Add`, the retry `Queue`, `Preferences.Relax`) live in
repository files that are not under `src/` and are modelled from the spec
as opaque behaviours: an acceptance predicate per node, and for a template
the resulting viable instance-type set when a fresh node admits the pod. The
claims settled here quantify over those behaviours, so they hold for the real
collaborators in particular. -/

/-- Modelled from the spec (§4.5 InFlightNode): `Add` either admits the pod or
fails; its internal checks and state updates are irrelevant to the dispatch
claims and are abstracted into an acceptance predicate. -/
structure InFlightNode where
  accepts : Pod → Bool

/-- Modelled from the spec (§4.6 ProposedNode / `scheduling.Node`): a proposed
node carries its provisioner name, its admitted-pod count (`len(node.Pods)`),
its current viable instance-type set (`node.InstanceTypeOptions`), and an
abstract acceptance predicate standing for `node.Add`. -/
structure PNode where
  provisioner : String
  podsCount : Nat
  instanceTypeOptions : List InstanceType
  accepts : Pod → Bool

/-- Modelled from the spec (§4.6): a successful `node.Add(pod)` grows the
admitted list by the pod. -/
def PNode.addPod (n : PNode) : PNode :=
  { n with podsCount := n.podsCount + 1 }

/-- Modelled from the spec (§4.8 step 4 / `scheduling.NodeTemplate`): a node
template names its provisioner; `tryAdd pod its` stands for
`NewNode(template, …, its).Add(pod)` and, on success, yields the fresh node's
resulting viable instance-type set; `freshAccepts` is the created node's
subsequent acceptance behaviour. -/
structure NodeTemplate where
  provisionerName : String
  tryAdd : Pod → List InstanceType → Option (List InstanceType)
  freshAccepts : Pod → Bool

/-- The proposed node `Scheduler.add` appends for a template whose fresh node
admitted the pod with resulting viable set `viable`. -/
def mkFreshNode (t : NodeTemplate) (viable : List InstanceType) : PNode :=
  { provisioner := t.provisionerName, podsCount := 1,
    instanceTypeOptions := viable, accepts := t.freshAccepts }

/-- Models `map[string]v1.ResourceList` (provisioner name → remaining
resources) as an association list. -/
abbrev RRMap := List (String × ResourceList)

/-- Go's two-valued map read `remaining, ok := m[k]`. -/
def rrLookup (m : RRMap) (k : String) : Option ResourceList :=
  (m.find? (fun kv => kv.1 = k)).map Prod.snd

/-- Go's map write `m[k] = v`. -/
def rrSet : RRMap → String → ResourceList → RRMap
  | [], k, v => [(k, v)]
  | kv :: rest, k, v =>
    if kv.1 = k then (k, v) :: rest else kv :: rrSet rest k v

/-- Models `SchedErr` reasons accumulated by the template loop
(`multierr.Append`): the limit error of scheduler.go:178 or a failed
`node.Add`. The Go combined error is nil iff nothing was appended. -/
inductive SchedErrItem where
  | limitExceeded
  | nodeAddFailed
deriving DecidableEq

abbrev SchedErr := List SchedErrItem

/-- Translation of the `Scheduler` fields used by `add` and `Solve`
(scheduler.go:82-93). -/
structure Scheduler where
  inflight : List InFlightNode
  nodes : List PNode
  nodeTemplates : List NodeTemplate
  remainingResources : RRMap
  instanceTypes : List InstanceType

/-- The comparison `sort.Slice(s.nodes, …, len(a.Pods) < len(b.Pods))` sorts
by: ascending admitted-pod count. -/
def nodeLE (a b : PNode) : Prop := a.podsCount ≤ b.podsCount

instance : DecidableRel nodeLE := fun a b => Nat.decLe a.podsCount b.podsCount

/-- The sort of proposed nodes in `Scheduler.add` (scheduler.go:161).
`sort.Slice` promises only an ascending reordering; the model uses insertion
sort, which satisfies that contract. -/
def sortByPods (l : List PNode) : List PNode :=
  List.insertionSort nodeLE l

/-- Translation of the second loop of `Scheduler.add` (scheduler.go:164-168):
try each proposed node in order, admitting the pod on the first success. -/
def tryExisting : List PNode → Pod → Option (List PNode)
  | [], _ => none
  | n :: rest, pod =>
    if n.accepts pod then some (n.addPod :: rest)
    else (tryExisting rest pod).map (fun l => n :: l)

/-- Translation of the template loop of `Scheduler.add` (scheduler.go:171-193):
for each template in declared order, filter the instance types by the
provisioner's remaining resources when limits exist (skipping the template
with a limit error when nothing survives), try a fresh node, and on success
charge `subtractMax` against the provisioner's remaining resources. -/
def tryTemplates (pod : Pod) (allIts : List InstanceType) :
    List NodeTemplate → RRMap → SchedErr → RRMap × Option PNode × SchedErr
  | [], rr, errs => (rr, none, errs)
  | t :: rest, rr, errs =>
    let found := rrLookup rr t.provisionerName
    let its := match found with
      | some remaining => filterByRemainingResources allIts remaining
      | none => allIts
    if found.isSome ∧ its = [] then
      tryTemplates pod allIts rest rr (errs ++ [SchedErrItem.limitExceeded])
    else
      match t.tryAdd pod its with
      | some viable =>
        (rrSet rr t.provisionerName (subtractMax (found.getD []) viable),
         some (mkFreshNode t viable), errs)
      | none => tryTemplates pod allIts rest rr (errs ++ [SchedErrItem.nodeAddFailed])

/-- Translation of `Scheduler.add` (scheduler.go:152-194): in-flight nodes
first (returning before the sort, as the source does), then the proposed
nodes sorted ascending by admitted-pod count, then the template loop. -/
def Scheduler.add (s : Scheduler) (pod : Pod) : Scheduler × Option SchedErr :=
  if s.inflight.any (fun n => n.accepts pod) then (s, none)
  else
    let sorted := sortByPods s.nodes
    match tryExisting sorted pod with
    | some nodes' => ({ s with nodes := nodes' }, none)
    | none =>
      match tryTemplates pod s.instanceTypes s.nodeTemplates s.remainingResources [] with
      | (rr', some n, _) =>
        ({ s with nodes := sorted ++ [n], remainingResources := rr' }, none)
      | (rr', none, errs) =>
        ({ s with nodes := sorted, remainingResources := rr' },
         if errs = [] then none else some errs)

instance : IsTotal PNode nodeLE := ⟨fun a b => Nat.le_total a.podsCount b.podsCount⟩

instance : IsTrans PNode nodeLE := ⟨fun _ _ _ => Nat.le_trans⟩

theorem sortByPods_perm (l : List PNode) : (sortByPods l).Perm l :=
  List.perm_insertionSort nodeLE l

theorem sortByPods_sorted (l : List PNode) : List.Sorted nodeLE (sortByPods l) :=
  List.sorted_insertionSort nodeLE l

theorem tryExisting_eq_none (l : List PNode) (pod : Pod) :
    tryExisting l pod = none ↔ ∀ n ∈ l, n.accepts pod = false := by
  induction l with
  | nil => simp [tryExisting]
  | cons n rest ih =>
    by_cases h : n.accepts pod <;> simp [tryExisting, h, ih]

theorem tryExisting_length (l : List PNode) (pod : Pod) (l' : List PNode)
    (h : tryExisting l pod = some l') : l'.length = l.length := by
  induction l generalizing l' with
  | nil => simp [tryExisting] at h
  | cons n rest ih =>
    by_cases ha : n.accepts pod
    · rw [tryExisting, if_pos ha] at h
      cases h
      simp
    · rw [tryExisting, if_neg ha] at h
      rcases Option.map_eq_some'.mp h with ⟨l'', h1, h2⟩
      subst h2
      simp [ih l'' h1]

theorem tryExisting_first (l₁ : List PNode) (n : PNode) (l₂ : List PNode)
    (pod : Pod) (hrefuse : ∀ m ∈ l₁, m.accepts pod = false)
    (haccept : n.accepts pod = true) :
    tryExisting (l₁ ++ n :: l₂) pod = some (l₁ ++ n.addPod :: l₂) := by
  induction l₁ with
  | nil => simp [tryExisting, haccept]
  | cons m rest ih =>
    have hm : m.accepts pod = false := hrefuse m (List.mem_cons_self m rest)
    have ih' := ih (fun x hx => hrefuse x (List.mem_cons_of_mem m hx))
    simp [tryExisting, hm, ih']

theorem rrLookup_rrSet_self (m : RRMap) (k : String) (v : ResourceList) :
    rrLookup (rrSet m k v) k = some v := by
  induction m with
  | nil => simp [rrSet, rrLookup]
  | cons kv rest ih =>
    by_cases h : kv.1 = k
    · simp [rrSet, h, rrLookup, List.find?]
    · simp only [rrSet, h, if_neg, not_false_iff]
      simpa [rrLookup, List.find?, h] using ih

/-- The viable instance-type pool `Scheduler.add` hands a fresh node built
from template `t`: the full pool, filtered by the provisioner's remaining
resources when the provisioner has limits (scheduler.go:173-181). -/
def templateViable (allIts : List InstanceType) (rr : RRMap)
    (t : NodeTemplate) : List InstanceType :=
  match rrLookup rr t.provisionerName with
  | some remaining => filterByRemainingResources allIts remaining
  | none => allIts

/-- Template `t` fails to place the pod: either the limit filter leaves no
instance type (the template is skipped with a limit error), or the fresh node
refuses the pod. -/
def templateRefuses (pod : Pod) (allIts : List InstanceType) (rr : RRMap)
    (t : NodeTemplate) : Prop :=
  ((rrLookup rr t.provisionerName).isSome ∧ templateViable allIts rr t = [])
  ∨ t.tryAdd pod (templateViable allIts rr t) = none

theorem tryTemplates_first_success (pod : Pod) (allIts : List InstanceType) :
    ∀ (t₁ : List NodeTemplate) (t : NodeTemplate) (t₂ : List NodeTemplate)
      (rr : RRMap) (errs : SchedErr) (viable : List InstanceType),
      (∀ t' ∈ t₁, templateRefuses pod allIts rr t') →
      ¬((rrLookup rr t.provisionerName).isSome ∧ templateViable allIts rr t = []) →
      t.tryAdd pod (templateViable allIts rr t) = some viable →
      (tryTemplates pod allIts (t₁ ++ t :: t₂) rr errs).1
          = rrSet rr t.provisionerName
              (subtractMax ((rrLookup rr t.provisionerName).getD []) viable)
        ∧ (tryTemplates pod allIts (t₁ ++ t :: t₂) rr errs).2.1
            = some (mkFreshNode t viable) := by
  intro t₁
  induction t₁ with
  | nil =>
    intro t t₂ rr errs viable _ hskip hadd
    simp only [List.nil_append, tryTemplates]
    rw [if_neg (by simpa [templateViable] using hskip)]
    simp only [show (match rrLookup rr t.provisionerName with
        | some remaining => filterByRemainingResources allIts remaining
        | none => allIts) = templateViable allIts rr t from rfl, hadd]
    exact ⟨trivial, trivial⟩
  | cons t' rest ih =>
    intro t t₂ rr errs viable hrefuse hskip hadd
    have hr := hrefuse t' (List.mem_cons_self t' rest)
    have htail : ∀ x ∈ rest, templateRefuses pod allIts rr x :=
      fun x hx => hrefuse x (List.mem_cons_of_mem t' hx)
    simp only [List.cons_append, tryTemplates]
    by_cases hc : (rrLookup rr t'.provisionerName).isSome
        ∧ (match rrLookup rr t'.provisionerName with
            | some remaining => filterByRemainingResources allIts remaining
            | none => allIts) = []
    · rw [if_pos hc]
      exact ih t t₂ rr _ viable htail hskip hadd
    · rw [if_neg hc]
      have hnone : t'.tryAdd pod (templateViable allIts rr t') = none := by
        rcases hr with h1 | h1
        · exact absurd (by simpa [templateViable] using h1) hc
        · exact h1
      rw [show (match rrLookup rr t'.provisionerName with
          | some remaining => filterByRemainingResources allIts remaining
          | none => allIts) = templateViable allIts rr t' from rfl, hnone]
      exact ih t t₂ rr _ viable htail hskip hadd

theorem tryTemplates_success_inv (pod : Pod) (allIts : List InstanceType) :
    ∀ (tl : List NodeTemplate) (rr : RRMap) (errs : SchedErr)
      (rr' : RRMap) (n : PNode) (errs' : SchedErr),
      tryTemplates pod allIts tl rr errs = (rr', some n, errs') →
      rr' = rrSet rr n.provisioner
        (subtractMax ((rrLookup rr n.provisioner).getD []) n.instanceTypeOptions) := by
  intro tl
  induction tl with
  | nil =>
    intro rr errs rr' n errs' h
    simp [tryTemplates] at h
  | cons t rest ih =>
    intro rr errs rr' n errs' h
    simp only [tryTemplates] at h
    by_cases hc : (rrLookup rr t.provisionerName).isSome
        ∧ (match rrLookup rr t.provisionerName with
            | some remaining => filterByRemainingResources allIts remaining
            | none => allIts) = []
    · rw [if_pos hc] at h
      exact ih rr _ rr' n errs' h
    · rw [if_neg hc] at h
      match hadd : t.tryAdd pod (match rrLookup rr t.provisionerName with
          | some remaining => filterByRemainingResources allIts remaining
          | none => allIts) with
      | some viable =>
        rw [hadd] at h
        simp only [Prod.mk.injEq, Option.some.injEq] at h
        rcases h with ⟨h1, h2, _⟩
        subst h2
        exact h1.symm
      | none =>
        rw [hadd] at h
        exact ih rr _ rr' n errs' h

theorem subtractMax_elementwise (rl : ResourceList) (its : List InstanceType)
    (k : ResourceName) (hk : k ∈ rlKeys rl) :
    rlLookup (subtractMax rl its) k
      = rlLookup rl k
        - rlLookup (maxResources (its.map InstanceType.resources)) k := by
  match its with
  | [] =>
    show rlLookup rl k = rlLookup rl k - rlLookup (maxResources []) k
    simp [maxResources, rlLookup]
  | it :: rest =>
    exact rlLookup_map_sub rl _ k hk

/-- C6: `Scheduler.add` tries placement targets in order — every in-flight
node first (returning before the proposed nodes are even sorted), then the
proposed nodes sorted ascending by admitted-pod count (a sorted permutation of
the pool), then the templates in declared order with a fresh node per viable
template — returning nil at the first target that accepts, and appending a new
node only after every in-flight and every proposed node has refused. -/
theorem scheduler_add_dispatch_order (s : Scheduler) (pod : Pod) :
    (sortByPods s.nodes).Perm s.nodes
    ∧ List.Sorted nodeLE (sortByPods s.nodes)
    ∧ (s.inflight.any (fun n => n.accepts pod) = true →
        Scheduler.add s pod = (s, none))
    ∧ (s.inflight.any (fun n => n.accepts pod) = false →
        ∀ l₁ n l₂, sortByPods s.nodes = l₁ ++ n :: l₂ →
          (∀ m ∈ l₁, m.accepts pod = false) → n.accepts pod = true →
          Scheduler.add s pod = ({ s with nodes := l₁ ++ n.addPod :: l₂ }, none))
    ∧ (∀ s' e, Scheduler.add s pod = (s', e) →
        s.nodes.length < s'.nodes.length →
        (∀ m ∈ s.inflight, m.accepts pod = false) ∧
          (∀ m ∈ s.nodes, m.accepts pod = false))
    ∧ (s.inflight.any (fun n => n.accepts pod) = false →
        (∀ m ∈ s.nodes, m.accepts pod = false) →
        ∀ t₁ t t₂ viable, s.nodeTemplates = t₁ ++ t :: t₂ →
          (∀ t' ∈ t₁,
            templateRefuses pod s.instanceTypes s.remainingResources t') →
          ¬((rrLookup s.remainingResources t.provisionerName).isSome ∧
              templateViable s.instanceTypes s.remainingResources t = []) →
          t.tryAdd pod (templateViable s.instanceTypes s.remainingResources t)
              = some viable →
          Scheduler.add s pod =
            ({ s with
                nodes := sortByPods s.nodes ++ [mkFreshNode t viable],
                remainingResources :=
                  rrSet s.remainingResources t.provisionerName
                    (subtractMax
                      ((rrLookup s.remainingResources t.provisionerName).getD [])
                      viable) }, none)) := by
  refine ⟨sortByPods_perm s.nodes, sortByPods_sorted s.nodes, ?_, ?_, ?_, ?_⟩
  · intro hany
    rw [Scheduler.add, if_pos hany]
  · intro hany l₁ n l₂ hdec hrefuse haccept
    have hex : tryExisting (sortByPods s.nodes) pod = some (l₁ ++ n.addPod :: l₂) := by
      rw [hdec]
      exact tryExisting_first l₁ n l₂ pod hrefuse haccept
    rw [Scheduler.add, if_neg (by simp [hany])]
    simp only [hex]
  · intro s' e hadd hlen
    by_cases hany : s.inflight.any (fun n => n.accepts pod) = true
    · rw [Scheduler.add, if_pos hany] at hadd
      cases hadd
      exact absurd hlen (Nat.lt_irrefl _)
    · have hany' : s.inflight.any (fun n => n.accepts pod) = false := by
        simpa using hany
      have hinflight : ∀ m ∈ s.inflight, m.accepts pod = false := by
        simpa using List.any_eq_false.mp hany'
      rw [Scheduler.add, if_neg (by simp [hany'])] at hadd
      match hex : tryExisting (sortByPods s.nodes) pod with
      | some nodes' =>
        simp only [hex] at hadd
        cases hadd
        have : nodes'.length = s.nodes.length := by
          rw [tryExisting_length _ pod nodes' hex]
          exact (sortByPods_perm s.nodes).length_eq
        exact absurd hlen (by simp [this])
      | none =>
        have hnodes : ∀ m ∈ s.nodes, m.accepts pod = false := by
          intro m hm
          exact (tryExisting_eq_none _ pod).mp hex m
            ((sortByPods_perm s.nodes).mem_iff.mpr hm)
        exact ⟨hinflight, hnodes⟩
  · intro hany hnodes t₁ t t₂ viable hdec hrefuse hskip hadd
    have hex : tryExisting (sortByPods s.nodes) pod = none := by
      rw [tryExisting_eq_none]
      intro m hm
      exact hnodes m ((sortByPods_perm s.nodes).mem_iff.mp hm)
    obtain ⟨h1, h2⟩ := tryTemplates_first_success pod s.instanceTypes t₁ t t₂
      s.remainingResources [] viable hrefuse hskip hadd
    rw [← hdec] at h1 h2
    rcases htt : tryTemplates pod s.instanceTypes s.nodeTemplates
        s.remainingResources [] with ⟨rr', onode, errs'⟩
    rw [htt] at h1 h2
    simp only at h1 h2
    subst h2
    subst h1
    rw [Scheduler.add, if_neg (by simp [hany])]
    simp only [hex, htt]

/-- C4: whenever `Scheduler.add` appends a new proposed node `n` and `n`'s
provisioner has a remaining-resources entry `rl`, that entry becomes
`subtractMax rl n.instanceTypeOptions`, which decreases `rl` at each of its
resource keys by the element-wise maximum capacity over the node's viable
instance-type set. -/
theorem scheduler_add_remaining_resources (s : Scheduler) (pod : Pod)
    (n : PNode) (rl : ResourceList)
    (hgrow : (Scheduler.add s pod).1.nodes = sortByPods s.nodes ++ [n])
    (hrl : rrLookup s.remainingResources n.provisioner = some rl) :
    rrLookup (Scheduler.add s pod).1.remainingResources n.provisioner
        = some (subtractMax rl n.instanceTypeOptions)
    ∧ ∀ k ∈ rlKeys rl,
        rlLookup (subtractMax rl n.instanceTypeOptions) k
          = rlLookup rl k
            - rlLookup
                (maxResources (n.instanceTypeOptions.map InstanceType.resources))
                k := by
  refine ⟨?_, fun k hk => subtractMax_elementwise rl _ k hk⟩
  have hsortlen : (sortByPods s.nodes).length = s.nodes.length :=
    (sortByPods_perm s.nodes).length_eq
  by_cases hany : s.inflight.any (fun m => m.accepts pod) = true
  · rw [Scheduler.add, if_pos hany] at hgrow ⊢
    have := congrArg List.length hgrow
    simp [hsortlen] at this
  · have hany' : s.inflight.any (fun m => m.accepts pod) = false := by
      simpa using hany
    rw [Scheduler.add, if_neg (by simp [hany'])] at hgrow ⊢
    match hex : tryExisting (sortByPods s.nodes) pod with
    | some nodes' =>
      simp only [hex] at hgrow ⊢
      have hlen : nodes'.length = s.nodes.length := by
        rw [tryExisting_length _ pod nodes' hex]
        exact hsortlen
      have := congrArg List.length hgrow
      simp [hlen, hsortlen] at this
    | none =>
      rcases htt : tryTemplates pod s.instanceTypes s.nodeTemplates
          s.remainingResources [] with ⟨rr', onode, errs'⟩
      match onode, htt with
      | some n', htt =>
        simp only [hex, htt] at hgrow ⊢
        have hn : n' = n := by
          have := List.append_cancel_left hgrow
          cases this
          rfl
        subst hn
        have hrr := tryTemplates_success_inv pod s.instanceTypes
          s.nodeTemplates s.remainingResources [] rr' n' errs' htt
        subst hrr
        rw [hrl]
        simpa using rrLookup_rrSet_self s.remainingResources n'.provisioner _
      | none, htt =>
        simp only [hex, htt] at hgrow ⊢
        have := congrArg List.length hgrow
        simp [hsortlen] at this

/-- Witness for C6: one refusing in-flight node, one accepting proposed node —
`add` admits the pod on the proposed node and creates nothing. -/
theorem scheduler_add_dispatch_order_witness :
    Scheduler.add
        { inflight := [{ accepts := fun _ => false }],
          nodes := [{ provisioner := "p", podsCount := 0,
                      instanceTypeOptions := [], accepts := fun _ => true }],
          nodeTemplates := [], remainingResources := [], instanceTypes := [] }
        { namespaceName := "ns", name := "pod", containers := [], relaxable := 0 }
      = ({ inflight := [{ accepts := fun _ => false }],
           nodes := [PNode.addPod
             { provisioner := "p", podsCount := 0,
               instanceTypeOptions := [], accepts := fun _ => true }],
           nodeTemplates := [], remainingResources := [], instanceTypes := [] },
         none) :=
  (scheduler_add_dispatch_order
      { inflight := [{ accepts := fun _ => false }],
        nodes := [{ provisioner := "p", podsCount := 0,
                    instanceTypeOptions := [], accepts := fun _ => true }],
        nodeTemplates := [], remainingResources := [], instanceTypes := [] }
      { namespaceName := "ns", name := "pod", containers := [],
        relaxable := 0 }).2.2.2.1 rfl
    [] { provisioner := "p", podsCount := 0,
         instanceTypeOptions := [], accepts := fun _ => true } []
    rfl (by simp) rfl

/-- Witness for C4: a template with a 10-CPU budget admits the pod on a fresh
node whose only viable type has 4 CPUs, and the budget entry becomes
`subtractMax`. -/
theorem scheduler_add_remaining_resources_witness :
    rrLookup
        (Scheduler.add
          { inflight := [], nodes := [],
            nodeTemplates := [{ provisionerName := "p",
                                tryAdd := fun _ its => some its,
                                freshAccepts := fun _ => false }],
            remainingResources := [("p", [("cpu", 10)])],
            instanceTypes := [{ name := "small", resources := [("cpu", 4)] }] }
          { namespaceName := "ns", name := "pod", containers := [],
            relaxable := 0 }).1.remainingResources
        (mkFreshNode
          { provisionerName := "p", tryAdd := fun _ its => some its,
            freshAccepts := fun _ => false }
          [{ name := "small", resources := [("cpu", 4)] }]).provisioner
      = some (subtractMax [("cpu", 10)]
          (mkFreshNode
            { provisionerName := "p", tryAdd := fun _ its => some its,
              freshAccepts := fun _ => false }
            [{ name := "small", resources := [("cpu", 4)] }]).instanceTypeOptions) :=
  (scheduler_add_remaining_resources
    { inflight := [], nodes := [],
      nodeTemplates := [{ provisionerName := "p",
                          tryAdd := fun _ its => some its,
                          freshAccepts := fun _ => false }],
      remainingResources := [("p", [("cpu", 10)])],
      instanceTypes := [{ name := "small", resources := [("cpu", 4)] }] }
    { namespaceName := "ns", name := "pod", containers := [], relaxable := 0 }
    (mkFreshNode
      { provisionerName := "p", tryAdd := fun _ its => some its,
        freshAccepts := fun _ => false }
      [{ name := "small", resources := [("cpu", 4)] }])
    [("cpu", 10)] rfl rfl).1

/-- Models `context.Context` as consumed by `Solve`: the only capability the
claim concerns is whether the context has been cancelled. -/
structure Context where
  cancelled : Bool

/-- Modelled from the spec (§4.7 PreferenceRelaxer): stripping one
soft-constraint layer per call until none remain, reporting whether anything
changed. The pod's remaining layers are abstracted into the counter
`relaxable`. -/
def relax (p : Pod) : Pod × Bool :=
  if p.relaxable = 0 then (p, false)
  else ({ p with relaxable := p.relaxable - 1 }, true)

/-- Termination measure for the retry loop: every pop either retires a pod or
strictly shrinks its relaxation budget. -/
def queueMeasure (q : List Pod) : Nat :=
  (q.map (fun p => p.relaxable + 1)).sum

/-- Translation of the `Solve` loop body (scheduler.go:103-123) with the
queue modelled from the spec (§4.8): pop the front pod; on placement success
drop it; on failure relax it and re-enqueue at the back if anything changed
(`q.Push(pod, relaxed)`), otherwise retire it as failed with its error. -/
def solveLoop (s : Scheduler) (q : List Pod) (failed : List Pod) :
    Scheduler × List Pod :=
  match q with
  | [] => (s, failed)
  | pod :: rest =>
    let step := Scheduler.add s pod
    match step.2 with
    | none => solveLoop step.1 rest failed
    | some _ =>
      if h : (relax pod).2 = true then
        solveLoop step.1 (rest ++ [(relax pod).1]) failed
      else
        solveLoop step.1 rest (failed ++ [pod])
termination_by queueMeasure q
decreasing_by
  · simp only [queueMeasure, List.map_cons, List.sum_cons]
    omega
  · simp only [queueMeasure, List.map_append, List.sum_append, List.map_cons,
      List.sum_cons, List.map_nil, List.sum_nil]
    have hz : ¬ pod.relaxable = 0 := by
      intro h0
      rw [relax, if_pos h0] at h
      simp at h
    rw [relax, if_neg hz]
    simp
    omega
  · simp only [queueMeasure, List.map_cons, List.sum_cons]
    omega

/-- Translation of `Scheduler.Solve` (scheduler.go:95-126). The context
parameter reaches only logging and the relaxer's logging; the loop never
consults it, and the source's final statement is `return s.nodes, nil`. -/
def Scheduler.Solve (ctx : Context) (s : Scheduler) (pods : List Pod) :
    List PNode × Option SchedErr :=
  ((solveLoop s pods []).1.nodes, none)

/-- C3 counterexample: with an already-cancelled context and a non-empty pod
batch, `Solve` still returns a nil error (it never returns a cancellation
error; it does not check the context between queue iterations). -/
theorem solve_ignores_cancellation_counterexample :
    (Scheduler.Solve { cancelled := true }
        { inflight := [], nodes := [],
          nodeTemplates := [{ provisionerName := "p",
                              tryAdd := fun _ _ => none,
                              freshAccepts := fun _ => false }],
          remainingResources := [], instanceTypes := [] }
        [{ namespaceName := "ns", name := "pod", containers := [],
           relaxable := 0 }]).2 = none :=
  rfl

/-- C3 (amended): `Solve` does not consult the caller's context at all — its
result is independent of the context, and the error it returns is always nil
(the queue is always drained to completion; cancellation is never reported). -/
theorem solve_ignores_cancellation (ctx₁ ctx₂ : Context) (s : Scheduler)
    (pods : List Pod) :
    Scheduler.Solve ctx₁ s pods = Scheduler.Solve ctx₂ s pods
    ∧ (Scheduler.Solve ctx₁ s pods).2 = none :=
  ⟨rfl, rfl⟩

end Karpenter
